import Mathlib

/-!
# Verification of the noisy-black-box root-finding search driver

The repository is a notebook that drives `openmc.search_for_keff` over a
parametrized pin-cell model.  The search driver itself is an external
capability: only its caller and its iteration log appear in the notebook.
Following the specification, the driver (`SearchDriver.search`) is modelled
here over exact rationals: an evaluator maps a scalar guess to a measurement
(value and uncertainty), and the driver performs bisection (or guarded
secant) on a caller-supplied bracket, accumulating an append-only history.
-/

namespace SearchDriver

/-- Modelled from the spec: a Measurement is a noisy point estimate
`{ value : real, uncertainty : real }` of the model response at a guess. -/
structure Measurement where
  value : ℚ
  uncertainty : ℚ
deriving Repr, DecidableEq

/-- Modelled from the spec: the evaluator is an external callable from a
real-valued guess to a measurement (deterministic aside from noise; the
noise realization is folded into the function itself). -/
def Evaluator : Type := ℚ → Measurement

/-- Sign of a rational, valued in `{-1, 0, 1}`, used for the bracket
straddle test `sign(value - target)`. -/
def sgn (x : ℚ) : Int := if 0 < x then 1 else if x < 0 then -1 else 0

/-- Modelled from the spec: error conditions of the search driver.
(`NotConverged` is not an error: it is the terminal state with
`converged = false` in `SearchResult`.) -/
inductive SearchError where
  | invalidBracket
  | bracketNotFound
  | evaluationFailed (guess : ℚ)
  | searchDegenerate
deriving Repr, DecidableEq

/-- Modelled from the spec: the result tuple
`(final_guess, guess history, measurement history, converged flag)`. -/
structure SearchResult where
  finalGuess : ℚ
  guesses : List ℚ
  measurements : List Measurement
  converged : Bool
deriving Repr, DecidableEq

/-- Internal output of an iteration loop: the accumulated history of
(guess, measurement) pairs, the log of evaluator invocations (in call
order), the final guess and the converged flag. -/
structure LoopOut where
  hist : List (ℚ × Measurement)
  callLog : List ℚ
  finalGuess : ℚ
  converged : Bool
deriving Repr, DecidableEq

/-- Modelled from the spec: on exhaustion the driver reports "the best guess
so far": the recorded guess whose measured value is closest to the target. -/
def bestGuess (target : ℚ) : List (ℚ × Measurement) → ℚ
  | [] => 0
  | p :: ps =>
      (ps.foldl
        (fun acc q =>
          if |q.2.value - target| < |acc.2.value - target| then q else acc)
        p).1

/-- Modelled from the spec: the bisection iteration.  At each step the new
guess is the midpoint of the current bracket; it is evaluated and appended
to the history; the search stops when `|value - target| < tol`, otherwise
the endpoint whose `sign(value - target)` matches the new measurement is
replaced by the new guess.  `vLo` is the measured value at the current lower
endpoint, and the fuel argument is the remaining iteration budget. -/
def bisectLoop (e : Evaluator) (target tol : ℚ) :
    Nat → ℚ → ℚ → ℚ → List (ℚ × Measurement) → List ℚ → LoopOut
  | 0, _, _, _, hist, callLog =>
      ⟨hist, callLog, bestGuess target hist, false⟩
  | fuel + 1, lo, hi, vLo, hist, callLog =>
      if |(e ((lo + hi) / 2)).value - target| < tol then
        ⟨hist ++ [((lo + hi) / 2, e ((lo + hi) / 2))],
         callLog ++ [(lo + hi) / 2], (lo + hi) / 2, true⟩
      else if sgn ((e ((lo + hi) / 2)).value - target) = sgn (vLo - target) then
        bisectLoop e target tol fuel ((lo + hi) / 2) hi (e ((lo + hi) / 2)).value
          (hist ++ [((lo + hi) / 2, e ((lo + hi) / 2))]) (callLog ++ [(lo + hi) / 2])
      else
        bisectLoop e target tol fuel lo ((lo + hi) / 2) vLo
          (hist ++ [((lo + hi) / 2, e ((lo + hi) / 2))]) (callLog ++ [(lo + hi) / 2])

/-- The full bisection run after the two endpoint evaluations: the initial
history holds the endpoint measurements (lower endpoint first). -/
def searchRun (e : Evaluator) (target tol lo hi : ℚ) (maxIter : Nat) : LoopOut :=
  bisectLoop e target tol maxIter lo hi (e lo).value
    [(lo, e lo), (hi, e hi)] [lo, hi]

/-- Package a loop output as the caller-facing result tuple. -/
def resultOf (out : LoopOut) : SearchResult :=
  { finalGuess := out.finalGuess
    guesses := out.hist.map Prod.fst
    measurements := out.hist.map Prod.snd
    converged := out.converged }

/-- Modelled from the spec: the bisection search with a caller-supplied
bracket.  The two endpoints are evaluated first (lower endpoint first); if
their signs relative to the target do not straddle, the search fails fast
with `InvalidBracketError` before any interior evaluation.  Otherwise the
driver iterates bisection up to `maxIter` interior evaluations.  Returns
the outcome together with the log of every evaluator invocation made. -/
def searchTr (e : Evaluator) (target tol lo hi : ℚ) (maxIter : Nat) :
    Except SearchError SearchResult × List ℚ :=
  if sgn ((e lo).value - target) = sgn ((e hi).value - target) then
    (Except.error SearchError.invalidBracket, [lo, hi])
  else
    (Except.ok (resultOf (searchRun e target tol lo hi maxIter)),
     (searchRun e target tol lo hi maxIter).callLog)

/-- Modelled from the spec: the caller-facing search operation, returning
`(final_guess, guess history, measurement history, converged flag)` or an
error. -/
def search (e : Evaluator) (target tol lo hi : ℚ) (maxIter : Nat) :
    Except SearchError SearchResult :=
  (searchTr e target tol lo hi maxIter).1

/-- A linear evaluator `f(x) = a*x + b` with zero reported uncertainty. -/
def linEval (a b : ℚ) : Evaluator := fun x => ⟨a * x + b, 0⟩

/-- Modelled from the spec: one step of the bisection bracket recurrence,
written directly from the algorithm sentence: the new guess is the midpoint,
and the endpoint whose `sign(value - target)` equals that of the new
measurement is replaced by it. -/
def specStep (e : Evaluator) (target : ℚ) (p : ℚ × ℚ) : ℚ × ℚ :=
  if sgn ((e ((p.1 + p.2) / 2)).value - target) = sgn ((e p.1).value - target) then
    ((p.1 + p.2) / 2, p.2)
  else
    (p.1, (p.1 + p.2) / 2)

/-- Modelled from the spec: the bracket after `n` bisection steps starting
from the caller-supplied bracket `(lo, hi)`. -/
def specBracket (e : Evaluator) (target lo hi : ℚ) (n : Nat) : ℚ × ℚ :=
  (specStep e target)^[n] (lo, hi)

/-- The midpoint guess proposed from a bracket. -/
def midOf (p : ℚ × ℚ) : ℚ := (p.1 + p.2) / 2

/-- Modelled from the spec: a bracket `(l, h)` straddles the target when
`sign(evaluator(l) - target) ≠ sign(evaluator(h) - target)`. -/
def Straddles (e : Evaluator) (target l h : ℚ) : Prop :=
  sgn ((e l).value - target) ≠ sgn ((e h).value - target)

/-- Modelled from the spec: the next guess proposed in secant mode.  It is
the linear interpolation `g1 + (target - v1) * (g2 - g1) / (v2 - v1)`
through the two most recent pairs, except that when `v2 = v1` (zero slope)
or when the interpolated point falls outside the current bracket, the
bisection midpoint is used instead. -/
def secantNext (target lo hi g1 v1 g2 v2 : ℚ) : ℚ :=
  if v2 = v1 then (lo + hi) / 2
  else if g1 + (target - v1) * (g2 - g1) / (v2 - v1) < min lo hi ∨
          max lo hi < g1 + (target - v1) * (g2 - g1) / (v2 - v1) then
    (lo + hi) / 2
  else
    g1 + (target - v1) * (g2 - g1) / (v2 - v1)

/-- Modelled from the spec: the guarded ("bracketed secant") iteration.  The
state carries the current bracket `(lo, hi)` (with `vLo` the measured value
at its lower endpoint) and the two most recent pairs `(g1, v1)`, `(g2, v2)`.
Each step evaluates `secantNext`, appends to the history, stops when the
tolerance is met, and otherwise keeps the bracket by replacing the endpoint
whose sign matches the new measurement. -/
def secantLoop (e : Evaluator) (target tol : ℚ) :
    Nat → ℚ → ℚ → ℚ → ℚ → ℚ → ℚ → ℚ → List (ℚ × Measurement) → List ℚ → LoopOut
  | 0, _, _, _, _, _, _, _, hist, callLog =>
      ⟨hist, callLog, bestGuess target hist, false⟩
  | fuel + 1, lo, hi, vLo, g1, v1, g2, v2, hist, callLog =>
      if |(e (secantNext target lo hi g1 v1 g2 v2)).value - target| < tol then
        ⟨hist ++ [(secantNext target lo hi g1 v1 g2 v2,
            e (secantNext target lo hi g1 v1 g2 v2))],
         callLog ++ [secantNext target lo hi g1 v1 g2 v2],
         secantNext target lo hi g1 v1 g2 v2, true⟩
      else if sgn ((e (secantNext target lo hi g1 v1 g2 v2)).value - target)
          = sgn (vLo - target) then
        secantLoop e target tol fuel (secantNext target lo hi g1 v1 g2 v2) hi
          (e (secantNext target lo hi g1 v1 g2 v2)).value
          g2 v2 (secantNext target lo hi g1 v1 g2 v2)
          (e (secantNext target lo hi g1 v1 g2 v2)).value
          (hist ++ [(secantNext target lo hi g1 v1 g2 v2,
            e (secantNext target lo hi g1 v1 g2 v2))])
          (callLog ++ [secantNext target lo hi g1 v1 g2 v2])
      else
        secantLoop e target tol fuel lo (secantNext target lo hi g1 v1 g2 v2) vLo
          g2 v2 (secantNext target lo hi g1 v1 g2 v2)
          (e (secantNext target lo hi g1 v1 g2 v2)).value
          (hist ++ [(secantNext target lo hi g1 v1 g2 v2,
            e (secantNext target lo hi g1 v1 g2 v2))])
          (callLog ++ [secantNext target lo hi g1 v1 g2 v2])

/-- The full secant run after the two endpoint evaluations; the two most
recent pairs start as the endpoint evaluations. -/
def secantRun (e : Evaluator) (target tol lo hi : ℚ) (maxIter : Nat) : LoopOut :=
  secantLoop e target tol maxIter lo hi (e lo).value lo (e lo).value hi (e hi).value
    [(lo, e lo), (hi, e hi)] [lo, hi]

/-- Modelled from the spec: the secant-mode search with a caller-supplied
bracket, with the same endpoint validation as bisection. -/
def searchSecantTr (e : Evaluator) (target tol lo hi : ℚ) (maxIter : Nat) :
    Except SearchError SearchResult × List ℚ :=
  if sgn ((e lo).value - target) = sgn ((e hi).value - target) then
    (Except.error SearchError.invalidBracket, [lo, hi])
  else
    (Except.ok (resultOf (secantRun e target tol lo hi maxIter)),
     (secantRun e target tol lo hi maxIter).callLog)

/-- Modelled from the spec: the keff evaluator realized in the notebook run,
as a lookup of the measured values at the guesses the log records
(1000, 2500, 1750, 2125, 1937.5, ...); elsewhere it returns the target. -/
def notebookKeff : Evaluator := fun x =>
  if x = 1000 then ⟨108971/100000, 163/100000⟩
  else if x = 2500 then ⟨95309/100000, 154/100000⟩
  else if x = 1750 then ⟨101511/100000, 156/100000⟩
  else if x = 2125 then ⟨98400/100000, 172/100000⟩
  else if x = 3875/2 then ⟨99913/100000, 174/100000⟩
  else if x = 29500/16 then ⟨100690/100000, 169/100000⟩
  else if x = 30250/16 then ⟨100394/100000, 162/100000⟩
  else if x = 30625/16 then ⟨100241/100000, 170/100000⟩
  else if x = 246500/128 then ⟨100204/100000, 154/100000⟩
  else ⟨1, 0⟩

section SgnLemmas

lemma sgn_eq_zero_iff (x : ℚ) : sgn x = 0 ↔ x = 0 := by
  unfold sgn
  split_ifs with h1 h2
  · constructor <;> intro h <;> [exact absurd h (by decide); exact absurd h1 (by simp [h])]
  · constructor <;> intro h <;> [exact absurd h (by decide); exact absurd h2 (by simp [h])]
  · constructor <;> intro _ <;> [skip; rfl]
    linarith [lt_trichotomy x 0, h1, h2]

lemma sgn_eq_one_iff (x : ℚ) : sgn x = 1 ↔ 0 < x := by
  unfold sgn
  split_ifs with h1 h2
  · simp [h1]
  · constructor <;> intro h <;> [exact absurd h (by decide); linarith]
  · constructor <;> intro h <;> [exact absurd h (by decide); exact absurd h h1]

lemma sgn_eq_negone_iff (x : ℚ) : sgn x = -1 ↔ x < 0 := by
  unfold sgn
  split_ifs with h1 h2
  · constructor <;> intro h <;> [exact absurd h (by decide); linarith]
  · simp [h2]
  · constructor <;> intro h <;> [exact absurd h (by decide); exact absurd h h2]

lemma sgn_ne_of_mul_neg {u v : ℚ} (h : u * v < 0) : sgn u ≠ sgn v := by
  rcases lt_trichotomy u 0 with hu | hu | hu
  · have hv : 0 < v := by nlinarith
    rw [(sgn_eq_negone_iff u).mpr hu, (sgn_eq_one_iff v).mpr hv]
    decide
  · exfalso; rw [hu] at h; simp at h
  · have hv : v < 0 := by nlinarith
    rw [(sgn_eq_one_iff u).mpr hu, (sgn_eq_negone_iff v).mpr hv]
    decide

lemma mul_neg_of_sgn_eq {u v w : ℚ} (h : u * v < 0)
    (hs : sgn w = sgn u) : w * v < 0 := by
  rcases lt_trichotomy u 0 with hu | hu | hu
  · have hv : 0 < v := by nlinarith
    have : w < 0 := by
      rw [(sgn_eq_negone_iff u).mpr hu] at hs
      exact (sgn_eq_negone_iff w).mp hs
    exact mul_neg_of_neg_of_pos this hv
  · exfalso; rw [hu] at h; simp at h
  · have hv : v < 0 := by nlinarith
    have : 0 < w := by
      rw [(sgn_eq_one_iff u).mpr hu] at hs
      exact (sgn_eq_one_iff w).mp hs
    exact mul_neg_of_pos_of_neg this hv

lemma mul_neg_of_sgn_ne {u w : ℚ} (hu : u ≠ 0) (hw : w ≠ 0)
    (hs : sgn w ≠ sgn u) : w * u < 0 := by
  rcases lt_trichotomy u 0 with hu1 | hu1 | hu1
  · rcases lt_trichotomy w 0 with hw1 | hw1 | hw1
    · exact absurd ((sgn_eq_negone_iff w).mpr hw1 |>.trans
        ((sgn_eq_negone_iff u).mpr hu1).symm) hs
    · exact absurd hw1 hw
    · exact mul_neg_of_pos_of_neg hw1 hu1
  · exact absurd hu1 hu
  · rcases lt_trichotomy w 0 with hw1 | hw1 | hw1
    · exact mul_neg_of_neg_of_pos hw1 hu1
    · exact absurd hw1 hw
    · exact absurd ((sgn_eq_one_iff w).mpr hw1 |>.trans
        ((sgn_eq_one_iff u).mpr hu1).symm) hs

end SgnLemmas

section LoopLemmas

lemma bisectLoop_zero (e : Evaluator) (target tol lo hi vLo : ℚ)
    (hist : List (ℚ × Measurement)) (callLog : List ℚ) :
    bisectLoop e target tol 0 lo hi vLo hist callLog =
      ⟨hist, callLog, bestGuess target hist, false⟩ := rfl

lemma bisectLoop_succ (e : Evaluator) (target tol : ℚ) (fuel : Nat)
    (lo hi vLo : ℚ) (hist : List (ℚ × Measurement)) (callLog : List ℚ) :
    bisectLoop e target tol (fuel + 1) lo hi vLo hist callLog =
      if |(e ((lo + hi) / 2)).value - target| < tol then
        ⟨hist ++ [((lo + hi) / 2, e ((lo + hi) / 2))],
         callLog ++ [(lo + hi) / 2], (lo + hi) / 2, true⟩
      else if sgn ((e ((lo + hi) / 2)).value - target) = sgn (vLo - target) then
        bisectLoop e target tol fuel ((lo + hi) / 2) hi (e ((lo + hi) / 2)).value
          (hist ++ [((lo + hi) / 2, e ((lo + hi) / 2))]) (callLog ++ [(lo + hi) / 2])
      else
        bisectLoop e target tol fuel lo ((lo + hi) / 2) vLo
          (hist ++ [((lo + hi) / 2, e ((lo + hi) / 2))])
          (callLog ++ [(lo + hi) / 2]) := rfl

lemma bisectLoop_append (e : Evaluator) (target tol : ℚ) (fuel : Nat) :
    ∀ (lo hi vLo : ℚ) (hist : List (ℚ × Measurement)) (callLog : List ℚ),
      ∃ d : List ℚ,
        (bisectLoop e target tol fuel lo hi vLo hist callLog).callLog =
            callLog ++ d ∧
        (bisectLoop e target tol fuel lo hi vLo hist callLog).hist =
            hist ++ d.map (fun g => (g, e g)) := by
  induction fuel with
  | zero =>
    intro lo hi vLo hist callLog
    exact ⟨[], by simp [bisectLoop_zero]⟩
  | succ k ih =>
    intro lo hi vLo hist callLog
    rw [bisectLoop_succ]
    split_ifs with h1 h2
    · exact ⟨[(lo + hi) / 2], by simp⟩
    · obtain ⟨d, hd1, hd2⟩ := ih ((lo + hi) / 2) hi (e ((lo + hi) / 2)).value
        (hist ++ [((lo + hi) / 2, e ((lo + hi) / 2))]) (callLog ++ [(lo + hi) / 2])
      exact ⟨(lo + hi) / 2 :: d, by rw [hd1]; simp, by rw [hd2]; simp⟩
    · obtain ⟨d, hd1, hd2⟩ := ih lo ((lo + hi) / 2) vLo
        (hist ++ [((lo + hi) / 2, e ((lo + hi) / 2))]) (callLog ++ [(lo + hi) / 2])
      exact ⟨(lo + hi) / 2 :: d, by rw [hd1]; simp, by rw [hd2]; simp⟩

lemma bisectLoop_length_le (e : Evaluator) (target tol : ℚ) (fuel : Nat) :
    ∀ (lo hi vLo : ℚ) (hist : List (ℚ × Measurement)) (callLog : List ℚ),
      (bisectLoop e target tol fuel lo hi vLo hist callLog).hist.length ≤
        hist.length + fuel := by
  induction fuel with
  | zero =>
    intro lo hi vLo hist callLog
    simp [bisectLoop_zero]
  | succ k ih =>
    intro lo hi vLo hist callLog
    rw [bisectLoop_succ]
    split_ifs with h1 h2
    · simp
    · exact le_trans (ih _ _ _ _ _)
        (by simp only [List.length_append, List.length_singleton]; omega)
    · exact le_trans (ih _ _ _ _ _)
        (by simp only [List.length_append, List.length_singleton]; omega)

lemma bisectLoop_notConverged (e : Evaluator) (target tol : ℚ) (fuel : Nat) :
    ∀ (lo hi vLo : ℚ) (hist : List (ℚ × Measurement)) (callLog : List ℚ),
      (bisectLoop e target tol fuel lo hi vLo hist callLog).converged = false →
      (bisectLoop e target tol fuel lo hi vLo hist callLog).finalGuess =
          bestGuess target (bisectLoop e target tol fuel lo hi vLo hist callLog).hist ∧
      (bisectLoop e target tol fuel lo hi vLo hist callLog).hist.length =
          hist.length + fuel := by
  induction fuel with
  | zero =>
    intro lo hi vLo hist callLog _
    simp [bisectLoop_zero]
  | succ k ih =>
    intro lo hi vLo hist callLog hc
    rw [bisectLoop_succ] at hc ⊢
    by_cases h1 : |(e ((lo + hi) / 2)).value - target| < tol
    · rw [if_pos h1] at hc
      exact absurd hc (by simp)
    · rw [if_neg h1] at hc ⊢
      by_cases h2 : sgn ((e ((lo + hi) / 2)).value - target) = sgn (vLo - target)
      · rw [if_pos h2] at hc ⊢
        obtain ⟨hf, hl⟩ := ih _ _ _ _ _ hc
        refine ⟨hf, ?_⟩
        rw [hl]
        simp only [List.length_append, List.length_singleton]
        omega
      · rw [if_neg h2] at hc ⊢
        obtain ⟨hf, hl⟩ := ih _ _ _ _ _ hc
        refine ⟨hf, ?_⟩
        rw [hl]
        simp only [List.length_append, List.length_singleton]
        omega

end LoopLemmas

section TraceLemmas

lemma specBracket_zero (e : Evaluator) (target lo hi : ℚ) :
    specBracket e target lo hi 0 = (lo, hi) := rfl

lemma specBracket_shift (e : Evaluator) (target lo hi : ℚ) (n : Nat) :
    specBracket e target (specStep e target (lo, hi)).1
        (specStep e target (lo, hi)).2 n =
      specBracket e target lo hi (n + 1) := by
  unfold specBracket
  rw [Function.iterate_succ_apply]

lemma bisectLoop_spec_trace (e : Evaluator) (target tol : ℚ) (fuel : Nat) :
    ∀ (lo hi : ℚ) (hist : List (ℚ × Measurement)) (callLog : List ℚ),
      ∃ m, m ≤ fuel ∧
        (bisectLoop e target tol fuel lo hi (e lo).value hist callLog).hist.map
            Prod.fst =
          hist.map Prod.fst ++
            (List.range m).map (fun n => midOf (specBracket e target lo hi n)) := by
  induction fuel with
  | zero =>
    intro lo hi hist callLog
    exact ⟨0, Nat.le_refl 0, by simp [bisectLoop_zero]⟩
  | succ k ih =>
    intro lo hi hist callLog
    rw [bisectLoop_succ]
    by_cases h1 : |(e ((lo + hi) / 2)).value - target| < tol
    · rw [if_pos h1]
      refine ⟨1, by omega, ?_⟩
      rw [List.range_succ, List.range_zero]
      simp [midOf, specBracket_zero]
    · rw [if_neg h1]
      by_cases h2 : sgn ((e ((lo + hi) / 2)).value - target) =
          sgn ((e lo).value - target)
      · rw [if_pos h2]
        have hstep : specStep e target (lo, hi) = ((lo + hi) / 2, hi) := by
          simp only [specStep]
          rw [if_pos h2]
        have h4 : ∀ n, specBracket e target ((lo + hi) / 2) hi n =
            specBracket e target lo hi (n + 1) := by
          intro n
          have h5 := specBracket_shift e target lo hi n
          rw [hstep] at h5
          exact h5
        obtain ⟨m, hm, hmap⟩ := ih ((lo + hi) / 2) hi
          (hist ++ [((lo + hi) / 2, e ((lo + hi) / 2))]) (callLog ++ [(lo + hi) / 2])
        refine ⟨m + 1, by omega, ?_⟩
        rw [hmap, List.range_succ_eq_map]
        simp only [h4, List.map_append, List.map_cons, List.map_nil, List.map_map]
        have h6 : midOf (specBracket e target lo hi 0) = (lo + hi) / 2 := by
          rw [specBracket_zero]; rfl
        rw [h6]
        simp only [List.append_assoc, List.cons_append, List.nil_append]
        have h8 : ((fun n => midOf (specBracket e target lo hi n)) ∘ Nat.succ) =
            fun n => midOf (specBracket e target lo hi (n + 1)) := by
          funext n
          simp [Function.comp, Nat.succ_eq_add_one]
        rw [h8]
      · rw [if_neg h2]
        have hstep : specStep e target (lo, hi) = (lo, (lo + hi) / 2) := by
          simp only [specStep]
          rw [if_neg h2]
        have h4 : ∀ n, specBracket e target lo ((lo + hi) / 2) n =
            specBracket e target lo hi (n + 1) := by
          intro n
          have h5 := specBracket_shift e target lo hi n
          rw [hstep] at h5
          exact h5
        obtain ⟨m, hm, hmap⟩ := ih lo ((lo + hi) / 2)
          (hist ++ [((lo + hi) / 2, e ((lo + hi) / 2))]) (callLog ++ [(lo + hi) / 2])
        refine ⟨m + 1, by omega, ?_⟩
        rw [hmap, List.range_succ_eq_map]
        simp only [h4, List.map_append, List.map_cons, List.map_nil, List.map_map]
        have h6 : midOf (specBracket e target lo hi 0) = (lo + hi) / 2 := by
          rw [specBracket_zero]; rfl
        rw [h6]
        simp only [List.append_assoc, List.cons_append, List.nil_append]
        have h8 : ((fun n => midOf (specBracket e target lo hi n)) ∘ Nat.succ) =
            fun n => midOf (specBracket e target lo hi (n + 1)) := by
          funext n
          simp [Function.comp, Nat.succ_eq_add_one]
        rw [h8]

end TraceLemmas

section SecantLemmas

lemma secantLoop_zero (e : Evaluator) (target tol lo hi vLo g1 v1 g2 v2 : ℚ)
    (hist : List (ℚ × Measurement)) (callLog : List ℚ) :
    secantLoop e target tol 0 lo hi vLo g1 v1 g2 v2 hist callLog =
      ⟨hist, callLog, bestGuess target hist, false⟩ := rfl

lemma secantLoop_succ (e : Evaluator) (target tol : ℚ) (fuel : Nat)
    (lo hi vLo g1 v1 g2 v2 : ℚ) (hist : List (ℚ × Measurement)) (callLog : List ℚ) :
    secantLoop e target tol (fuel + 1) lo hi vLo g1 v1 g2 v2 hist callLog =
      if |(e (secantNext target lo hi g1 v1 g2 v2)).value - target| < tol then
        ⟨hist ++ [(secantNext target lo hi g1 v1 g2 v2,
            e (secantNext target lo hi g1 v1 g2 v2))],
         callLog ++ [secantNext target lo hi g1 v1 g2 v2],
         secantNext target lo hi g1 v1 g2 v2, true⟩
      else if sgn ((e (secantNext target lo hi g1 v1 g2 v2)).value - target)
          = sgn (vLo - target) then
        secantLoop e target tol fuel (secantNext target lo hi g1 v1 g2 v2) hi
          (e (secantNext target lo hi g1 v1 g2 v2)).value
          g2 v2 (secantNext target lo hi g1 v1 g2 v2)
          (e (secantNext target lo hi g1 v1 g2 v2)).value
          (hist ++ [(secantNext target lo hi g1 v1 g2 v2,
            e (secantNext target lo hi g1 v1 g2 v2))])
          (callLog ++ [secantNext target lo hi g1 v1 g2 v2])
      else
        secantLoop e target tol fuel lo (secantNext target lo hi g1 v1 g2 v2) vLo
          g2 v2 (secantNext target lo hi g1 v1 g2 v2)
          (e (secantNext target lo hi g1 v1 g2 v2)).value
          (hist ++ [(secantNext target lo hi g1 v1 g2 v2,
            e (secantNext target lo hi g1 v1 g2 v2))])
          (callLog ++ [secantNext target lo hi g1 v1 g2 v2]) := rfl

lemma secantNext_mem (target lo hi g1 v1 g2 v2 : ℚ) :
    min lo hi ≤ secantNext target lo hi g1 v1 g2 v2 ∧
      secantNext target lo hi g1 v1 g2 v2 ≤ max lo hi := by
  have hmid : min lo hi ≤ (lo + hi) / 2 ∧ (lo + hi) / 2 ≤ max lo hi := by
    rcases le_total lo hi with h | h
    · rw [min_eq_left h, max_eq_right h]
      constructor <;> linarith
    · rw [min_eq_right h, max_eq_left h]
      constructor <;> linarith
  unfold secantNext
  split_ifs with h1 h2
  · exact hmid
  · exact hmid
  · push_neg at h2
    exact h2

lemma secantLoop_mem (e : Evaluator) (target tol : ℚ) (fuel : Nat) :
    ∀ (lo hi vLo g1 v1 g2 v2 : ℚ) (hist : List (ℚ × Measurement))
      (callLog : List ℚ),
      ∃ d : List ℚ,
        (secantLoop e target tol fuel lo hi vLo g1 v1 g2 v2 hist callLog).callLog =
            callLog ++ d ∧
        ∀ q ∈ d, min lo hi ≤ q ∧ q ≤ max lo hi := by
  induction fuel with
  | zero =>
    intro lo hi vLo g1 v1 g2 v2 hist callLog
    exact ⟨[], by simp [secantLoop_zero]⟩
  | succ k ih =>
    intro lo hi vLo g1 v1 g2 v2 hist callLog
    rw [secantLoop_succ]
    obtain ⟨hn1, hn2⟩ := secantNext_mem target lo hi g1 v1 g2 v2
    split_ifs with h1 h2
    · refine ⟨[secantNext target lo hi g1 v1 g2 v2], by simp, ?_⟩
      intro q hq
      rw [List.mem_singleton] at hq
      rw [hq]
      exact ⟨hn1, hn2⟩
    · obtain ⟨d, hd1, hd2⟩ := ih (secantNext target lo hi g1 v1 g2 v2) hi
        (e (secantNext target lo hi g1 v1 g2 v2)).value
        g2 v2 (secantNext target lo hi g1 v1 g2 v2)
        (e (secantNext target lo hi g1 v1 g2 v2)).value
        (hist ++ [(secantNext target lo hi g1 v1 g2 v2,
          e (secantNext target lo hi g1 v1 g2 v2))])
        (callLog ++ [secantNext target lo hi g1 v1 g2 v2])
      refine ⟨secantNext target lo hi g1 v1 g2 v2 :: d, by rw [hd1]; simp, ?_⟩
      intro q hq
      rcases List.mem_cons.mp hq with hq | hq
      · rw [hq]; exact ⟨hn1, hn2⟩
      · obtain ⟨hq1, hq2⟩ := hd2 q hq
        refine ⟨le_trans (le_min ?_ ?_) hq1, le_trans hq2 (max_le ?_ ?_)⟩
        · exact hn1
        · exact min_le_right lo hi
        · exact hn2
        · exact le_max_right lo hi
    · obtain ⟨d, hd1, hd2⟩ := ih lo (secantNext target lo hi g1 v1 g2 v2) vLo
        g2 v2 (secantNext target lo hi g1 v1 g2 v2)
        (e (secantNext target lo hi g1 v1 g2 v2)).value
        (hist ++ [(secantNext target lo hi g1 v1 g2 v2,
          e (secantNext target lo hi g1 v1 g2 v2))])
        (callLog ++ [secantNext target lo hi g1 v1 g2 v2])
      refine ⟨secantNext target lo hi g1 v1 g2 v2 :: d, by rw [hd1]; simp, ?_⟩
      intro q hq
      rcases List.mem_cons.mp hq with hq | hq
      · rw [hq]; exact ⟨hn1, hn2⟩
      · obtain ⟨hq1, hq2⟩ := hd2 q hq
        refine ⟨le_trans (le_min ?_ ?_) hq1, le_trans hq2 (max_le ?_ ?_)⟩
        · exact min_le_left lo hi
        · exact hn1
        · exact le_max_left lo hi
        · exact hn2

end SecantLemmas

section LinearLemmas

lemma linear_root_between {a b target lo hi : ℚ} (hlh : lo < hi)
    (hstr : (a * lo + b - target) * (a * hi + b - target) < 0) :
    a ≠ 0 ∧ lo < (target - b) / a ∧ (target - b) / a < hi := by
  have ha : a ≠ 0 := by
    intro h0
    rw [h0] at hstr
    simp at hstr
    nlinarith [mul_self_nonneg (b - target)]
  have hkey : ∀ x : ℚ, a * x + b - target = a * (x - (target - b) / a) := by
    intro x
    field_simp
    ring
  have ha2 : 0 < a * a := mul_self_pos.mpr ha
  have h1 : (lo - (target - b) / a) * (hi - (target - b) / a) < 0 := by
    rw [hkey lo, hkey hi] at hstr
    nlinarith [hstr, ha2]
  refine ⟨ha, ?_, ?_⟩
  · by_contra hc
    push_neg at hc
    have h2 : 0 ≤ (lo - (target - b) / a) * (hi - (target - b) / a) :=
      mul_nonneg (by linarith) (by linarith)
    linarith
  · by_contra hc
    push_neg at hc
    have h2 : 0 ≤ (lo - (target - b) / a) * (hi - (target - b) / a) := by
      nlinarith
    linarith

lemma bisectLoop_linear (a b target tol : ℚ) (ht : 0 < tol) (k : Nat) :
    ∀ (lo hi : ℚ) (hist : List (ℚ × Measurement)) (callLog : List ℚ),
      lo < hi →
      (a * lo + b - target) * (a * hi + b - target) < 0 →
      |a| * (hi - lo) < 2 ^ (k + 1) * tol →
      (bisectLoop (linEval a b) target tol (k + 1) lo hi (a * lo + b) hist
          callLog).converged = true ∧
      |(bisectLoop (linEval a b) target tol (k + 1) lo hi (a * lo + b) hist
          callLog).finalGuess - (target - b) / a| < tol / |a| := by
  induction k with
  | zero =>
    intro lo hi hist callLog hlh hstr hw
    obtain ⟨ha, hx1, hx2⟩ := linear_root_between hlh hstr
    have haabs : 0 < |a| := abs_pos.mpr ha
    have hkey : a * ((lo + hi) / 2) + b - target =
        a * ((lo + hi) / 2 - (target - b) / a) := by
      field_simp
      ring
    have hmidlt : |a * ((lo + hi) / 2) + b - target| < tol := by
      rw [hkey, abs_mul]
      have h2 : |(lo + hi) / 2 - (target - b) / a| < (hi - lo) / 2 := by
        rw [abs_lt]
        constructor <;> linarith
      have h3 : |a| * |(lo + hi) / 2 - (target - b) / a| < |a| * ((hi - lo) / 2) :=
        mul_lt_mul_of_pos_left h2 haabs
      have h4 : (2:ℚ) ^ (0 + 1) = 2 := by norm_num
      rw [h4] at hw
      linarith
    have hcond : |(linEval a b ((lo + hi) / 2)).value - target| < tol := hmidlt
    rw [bisectLoop_succ, if_pos hcond]
    refine ⟨rfl, ?_⟩
    show |(lo + hi) / 2 - (target - b) / a| < tol / |a|
    rw [lt_div_iff₀ haabs, mul_comm]
    rw [hkey, abs_mul] at hmidlt
    exact hmidlt
  | succ k ih =>
    intro lo hi hist callLog hlh hstr hw
    obtain ⟨ha, hx1, hx2⟩ := linear_root_between hlh hstr
    have haabs : 0 < |a| := abs_pos.mpr ha
    have hkey : a * ((lo + hi) / 2) + b - target =
        a * ((lo + hi) / 2 - (target - b) / a) := by
      field_simp
      ring
    rw [bisectLoop_succ]
    by_cases hcond : |(linEval a b ((lo + hi) / 2)).value - target| < tol
    · rw [if_pos hcond]
      refine ⟨rfl, ?_⟩
      show |(lo + hi) / 2 - (target - b) / a| < tol / |a|
      have hmidlt : |a * ((lo + hi) / 2) + b - target| < tol := hcond
      rw [lt_div_iff₀ haabs, mul_comm]
      rw [hkey, abs_mul] at hmidlt
      exact hmidlt
    · rw [if_neg hcond]
      have hmid0 : a * ((lo + hi) / 2) + b - target ≠ 0 := by
        intro h0
        apply hcond
        show |a * ((lo + hi) / 2) + b - target| < tol
        rw [h0]
        simpa using ht
      have hu0 : a * lo + b - target ≠ 0 := by
        intro h0
        rw [h0] at hstr
        simp at hstr
      have hw2 : |a| * (hi - lo) < 2 ^ (k + 1) * tol * 2 := by
        rw [pow_succ] at hw
        linarith [hw]
      by_cases hsgn : sgn ((linEval a b ((lo + hi) / 2)).value - target) =
          sgn (a * lo + b - target)
      · rw [if_pos hsgn]
        have hsgn2 : sgn (a * ((lo + hi) / 2) + b - target) =
            sgn (a * lo + b - target) := hsgn
        have hstr2 : (a * ((lo + hi) / 2) + b - target) * (a * hi + b - target) < 0 :=
          mul_neg_of_sgn_eq hstr hsgn2
        exact ih ((lo + hi) / 2) hi
          (hist ++ [((lo + hi) / 2, linEval a b ((lo + hi) / 2))])
          (callLog ++ [(lo + hi) / 2])
          (by linarith) hstr2
          (by
            have h6 : |a| * (hi - (lo + hi) / 2) = |a| * (hi - lo) / 2 := by ring
            rw [h6]
            linarith [hw2])
      · rw [if_neg hsgn]
        have hsgn2 : sgn (a * ((lo + hi) / 2) + b - target) ≠
            sgn (a * lo + b - target) := hsgn
        have hstr2 : (a * lo + b - target) * (a * ((lo + hi) / 2) + b - target) < 0 := by
          have h5 := mul_neg_of_sgn_ne hu0 hmid0 hsgn2
          linarith [h5,
            mul_comm (a * ((lo + hi) / 2) + b - target) (a * lo + b - target)]
        exact ih lo ((lo + hi) / 2)
          (hist ++ [((lo + hi) / 2, linEval a b ((lo + hi) / 2))])
          (callLog ++ [(lo + hi) / 2])
          (by linarith) hstr2
          (by
            have h6 : |a| * ((lo + hi) / 2 - lo) = |a| * (hi - lo) / 2 := by ring
            rw [h6]
            linarith [hw2])

end LinearLemmas

/-- C3: for every completed search (converged or exhausted) on a valid
bracket, the driver returns the result tuple `(final_guess, guess history,
measurement history, converged flag)`: the two histories are aligned ordered
sequences of equal length and the flag is a boolean. -/
theorem search_returns_result_tuple (e : Evaluator) (target tol lo hi : ℚ)
    (maxIter : Nat) (h : Straddles e target lo hi) :
    ∃ r : SearchResult, search e target tol lo hi maxIter = Except.ok r ∧
      r.guesses.length = r.measurements.length ∧
      (r.converged = true ∨ r.converged = false) := by
  rw [search, searchTr, if_neg h]
  refine ⟨resultOf (searchRun e target tol lo hi maxIter), rfl,
    by simp [resultOf], ?_⟩
  cases hc : (resultOf (searchRun e target tol lo hi maxIter)).converged
  · exact Or.inr rfl
  · exact Or.inl rfl

/-- C4: the returned guess history equals the log of evaluator invocations
exactly — same length, same order, nothing dropped or duplicated — and each
returned measurement is the evaluation of the correspondingly placed logged
guess, so no history entry differs from what was appended at call time. -/
theorem history_equals_call_log (e : Evaluator) (target tol lo hi : ℚ)
    (maxIter : Nat) (r : SearchResult) (lg : List ℚ)
    (h : searchTr e target tol lo hi maxIter = (Except.ok r, lg)) :
    r.guesses = lg ∧ r.measurements = lg.map (fun g => e g) := by
  rw [searchTr] at h
  by_cases hs : sgn ((e lo).value - target) = sgn ((e hi).value - target)
  · rw [if_pos hs, Prod.mk.injEq] at h
    exact absurd h.1 (by simp)
  · rw [if_neg hs, Prod.mk.injEq] at h
    obtain ⟨h1, h2⟩ := h
    rw [Except.ok.injEq] at h1
    obtain ⟨d, hd1, hd2⟩ := bisectLoop_append e target tol maxIter lo hi
      (e lo).value [(lo, e lo), (hi, e hi)] [lo, hi]
    subst h1
    subst h2
    have hd1' : (searchRun e target tol lo hi maxIter).callLog = [lo, hi] ++ d := hd1
    have hd2' : (searchRun e target tol lo hi maxIter).hist =
        [(lo, e lo), (hi, e hi)] ++ d.map (fun g => (g, e g)) := hd2
    constructor
    · show (resultOf (searchRun e target tol lo hi maxIter)).guesses =
        (searchRun e target tol lo hi maxIter).callLog
      rw [hd1']
      simp only [resultOf, hd2', List.map_append, List.map_map]
      rw [show List.map Prod.fst [(lo, e lo), (hi, e hi)] = [lo, hi] from rfl,
        show (Prod.fst ∘ fun g : ℚ => (g, e g)) = id from rfl, List.map_id]
    · show (resultOf (searchRun e target tol lo hi maxIter)).measurements =
        (searchRun e target tol lo hi maxIter).callLog.map (fun g => e g)
      rw [hd1']
      simp only [resultOf, hd2', List.map_append, List.map_map]
      rw [show List.map Prod.snd [(lo, e lo), (hi, e hi)] = [e lo, e hi] from rfl,
        show (Prod.snd ∘ fun g : ℚ => (g, e g)) = fun g : ℚ => e g from rfl]
      rw [show List.map (fun g : ℚ => e g) [lo, hi] = [e lo, e hi] from rfl]

/-- C6: a caller-supplied bracket that does not straddle the target makes
the search fail fast with `InvalidBracketError`, after exactly the two
endpoint evaluations (lo first, hi second) and no interior evaluation: the
full invocation log is `[lo, hi]`. -/
theorem invalid_bracket_fails_fast (e : Evaluator) (target tol lo hi : ℚ)
    (maxIter : Nat) (h : ¬ Straddles e target lo hi) :
    searchTr e target tol lo hi maxIter =
      (Except.error SearchError.invalidBracket, [lo, hi]) := by
  have h2 : sgn ((e lo).value - target) = sgn ((e hi).value - target) := by
    by_contra hc
    exact h hc
  rw [searchTr, if_pos h2]

/-- C7: exhausting the iteration budget yields a NotConverged result (an
ordinary result with `converged = false`, not an error) carrying the best
guess so far and the full history; with `max_iterations = 0` the result is
NotConverged with the minimal two-entry endpoint history and no crash. -/
theorem exhaustion_returns_notConverged (e : Evaluator) (target tol lo hi : ℚ)
    (h : Straddles e target lo hi) :
    (∃ r : SearchResult, search e target tol lo hi 0 = Except.ok r ∧
      r.converged = false ∧ r.guesses = [lo, hi] ∧
      r.finalGuess = bestGuess target [(lo, e lo), (hi, e hi)]) ∧
    (∀ (maxIter : Nat) (r : SearchResult),
      search e target tol lo hi maxIter = Except.ok r → r.converged = false →
      r.guesses.length = 2 + maxIter ∧
      r.finalGuess = bestGuess target (r.guesses.zip r.measurements)) := by
  constructor
  · rw [search, searchTr, if_neg h]
    refine ⟨resultOf (searchRun e target tol lo hi 0), rfl, ?_, ?_, ?_⟩
    · show (resultOf (searchRun e target tol lo hi 0)).converged = false
      simp [resultOf, searchRun, bisectLoop_zero]
    · show (resultOf (searchRun e target tol lo hi 0)).guesses = [lo, hi]
      simp [resultOf, searchRun, bisectLoop_zero]
    · show (resultOf (searchRun e target tol lo hi 0)).finalGuess =
        bestGuess target [(lo, e lo), (hi, e hi)]
      simp [resultOf, searchRun, bisectLoop_zero]
  · intro maxIter r hok hnc
    rw [search, searchTr, if_neg h] at hok
    have hok2 : Except.ok (resultOf (searchRun e target tol lo hi maxIter)) =
        Except.ok r := hok
    rw [Except.ok.injEq] at hok2
    subst hok2
    have hcv : (searchRun e target tol lo hi maxIter).converged = false := hnc
    obtain ⟨hf, hl⟩ := bisectLoop_notConverged e target tol maxIter lo hi
      (e lo).value [(lo, e lo), (hi, e hi)] [lo, hi] hcv
    have hf' : (searchRun e target tol lo hi maxIter).finalGuess =
        bestGuess target (searchRun e target tol lo hi maxIter).hist := hf
    have hl' : (searchRun e target tol lo hi maxIter).hist.length = 2 + maxIter := by
      have := hl
      simpa using this
    constructor
    · show (resultOf (searchRun e target tol lo hi maxIter)).guesses.length =
        2 + maxIter
      simp [resultOf, hl']
    · show (resultOf (searchRun e target tol lo hi maxIter)).finalGuess =
        bestGuess target
          ((resultOf (searchRun e target tol lo hi maxIter)).guesses.zip
            (resultOf (searchRun e target tol lo hi maxIter)).measurements)
      have hzip : ((searchRun e target tol lo hi maxIter).hist.map Prod.fst).zip
          ((searchRun e target tol lo hi maxIter).hist.map Prod.snd) =
          (searchRun e target tol lo hi maxIter).hist := by
        rw [List.zip_map']
        simp
      simp only [resultOf]
      rw [hzip]
      exact hf'

/-- C10: the first two evaluator invocations are the bracket endpoints, lo
first then hi, before any interior guess; hence the invocation log and the
returned guess history both begin with `[lo, hi]`. -/
theorem endpoints_evaluated_first (e : Evaluator) (target tol lo hi : ℚ)
    (maxIter : Nat) :
    (searchTr e target tol lo hi maxIter).2.take 2 = [lo, hi] ∧
    (∀ r : SearchResult, (searchTr e target tol lo hi maxIter).1 = Except.ok r →
      r.guesses.take 2 = [lo, hi]) := by
  rw [searchTr]
  by_cases hs : sgn ((e lo).value - target) = sgn ((e hi).value - target)
  · rw [if_pos hs]
    exact ⟨rfl, fun r hr => absurd hr (by simp)⟩
  · rw [if_neg hs]
    obtain ⟨d, hd1, hd2⟩ := bisectLoop_append e target tol maxIter lo hi
      (e lo).value [(lo, e lo), (hi, e hi)] [lo, hi]
    constructor
    · show (searchRun e target tol lo hi maxIter).callLog.take 2 = [lo, hi]
      have hd1' : (searchRun e target tol lo hi maxIter).callLog = [lo, hi] ++ d := hd1
      rw [hd1']
      simp [List.take_succ_cons]
    · intro r hr
      have hr2 : Except.ok (resultOf (searchRun e target tol lo hi maxIter)) =
          Except.ok r := hr
      rw [Except.ok.injEq] at hr2
      subst hr2
      show (resultOf (searchRun e target tol lo hi maxIter)).guesses.take 2 = [lo, hi]
      have hd2' : (searchRun e target tol lo hi maxIter).hist =
          [(lo, e lo), (hi, e hi)] ++ d.map (fun g => (g, e g)) := hd2
      simp [resultOf, hd2', List.take_succ_cons]

/-- C2: in bisection mode every guess after the two endpoint evaluations is
the midpoint of the current bracket, and the bracket evolves by replacing
the endpoint whose `sign(value - target)` matches the new measurement (the
other endpoint unchanged): the returned guess history is exactly `[lo, hi]`
followed by the midpoints of the bracket recurrence `specBracket`, which is
written directly from that replacement rule. -/
theorem bisect_guesses_follow_spec_recurrence (e : Evaluator)
    (target tol lo hi : ℚ) (maxIter : Nat) (r : SearchResult)
    (h : search e target tol lo hi maxIter = Except.ok r) :
    ∃ m, m ≤ maxIter ∧
      r.guesses = [lo, hi] ++
        (List.range m).map (fun n => midOf (specBracket e target lo hi n)) := by
  rw [search, searchTr] at h
  by_cases hs : sgn ((e lo).value - target) = sgn ((e hi).value - target)
  · rw [if_pos hs] at h
    exact absurd h (by simp)
  · rw [if_neg hs] at h
    have h2 : Except.ok (resultOf (searchRun e target tol lo hi maxIter)) =
        Except.ok r := h
    rw [Except.ok.injEq] at h2
    subst h2
    obtain ⟨m, hm, hmap⟩ := bisectLoop_spec_trace e target tol maxIter lo hi
      [(lo, e lo), (hi, e hi)] [lo, hi]
    refine ⟨m, hm, ?_⟩
    show (resultOf (searchRun e target tol lo hi maxIter)).guesses = _
    have hmap' : (searchRun e target tol lo hi maxIter).hist.map Prod.fst =
        [(lo, e lo), (hi, e hi)].map Prod.fst ++
          (List.range m).map (fun n => midOf (specBracket e target lo hi n)) := hmap
    simp only [resultOf]
    rw [hmap']
    rfl

/-- C5: the straddle invariant — `sign(evaluator(lo) - target)` differs from
`sign(evaluator(hi) - target)` — is preserved by every step of the bisection
bracket recurrence, so starting from a valid caller-supplied bracket every
bracket used by bisection straddles the root. -/
theorem bracket_straddle_invariant (e : Evaluator) (target lo hi : ℚ)
    (h : Straddles e target lo hi) (n : Nat) :
    Straddles e target (specBracket e target lo hi n).1
      (specBracket e target lo hi n).2 := by
  induction n with
  | zero =>
    rw [specBracket_zero]
    exact h
  | succ k ih =>
    have hstep : specBracket e target lo hi (k + 1) =
        specStep e target (specBracket e target lo hi k) := by
      unfold specBracket
      rw [Function.iterate_succ_apply']
    rw [hstep]
    unfold specStep
    by_cases hc : sgn ((e (((specBracket e target lo hi k).1 +
        (specBracket e target lo hi k).2) / 2)).value - target) =
        sgn ((e (specBracket e target lo hi k).1).value - target)
    · rw [if_pos hc]
      show sgn _ ≠ sgn _
      rw [hc]
      exact ih
    · rw [if_neg hc]
      show sgn _ ≠ sgn _
      exact fun hcc => hc hcc.symm

/-- C1 (amended): for a monotonic linear evaluator `f(x) = a*x + b` with
`a ≠ 0`, any target, any `tol > 0` and any bracket `lo < hi` strictly
straddling the target, bisection converges with the final guess within
`tol / |a|` of the root `x* = (target - b) / a` (distances on the response
scale contract by the slope), using at most `k` interior iterations — plus
the two endpoint evaluations — for any `k ≥ 1` with
`|a| * (hi - lo) < 2 ^ k * tol`, i.e. `ceil(log2(|a| * (hi - lo) / tol))`
iterations. -/
theorem bisection_linear_convergence (a b target tol lo hi : ℚ) (k : Nat)
    (ha : a ≠ 0) (ht : 0 < tol) (hlh : lo < hi)
    (hstr : (a * lo + b - target) * (a * hi + b - target) < 0)
    (hk : |a| * (hi - lo) < 2 ^ (k + 1) * tol) :
    ∃ r : SearchResult,
      search (linEval a b) target tol lo hi (k + 1) = Except.ok r ∧
      r.converged = true ∧
      |r.finalGuess - (target - b) / a| < tol / |a| ∧
      r.guesses.length ≤ 2 + (k + 1) := by
  have hs : ¬ sgn ((linEval a b lo).value - target) =
      sgn ((linEval a b hi).value - target) := by
    have h5 : sgn (a * lo + b - target) ≠ sgn (a * hi + b - target) :=
      sgn_ne_of_mul_neg hstr
    exact h5
  rw [search, searchTr, if_neg hs]
  obtain ⟨hc, hf⟩ := bisectLoop_linear a b target tol ht k lo hi
    [(lo, linEval a b lo), (hi, linEval a b hi)] [lo, hi] hlh hstr hk
  refine ⟨resultOf (searchRun (linEval a b) target tol lo hi (k + 1)), rfl,
    ?_, ?_, ?_⟩
  · exact hc
  · exact hf
  · show (resultOf (searchRun (linEval a b) target tol lo hi (k + 1))).guesses.length
      ≤ 2 + (k + 1)
    have h6 := bisectLoop_length_le (linEval a b) target tol (k + 1) lo hi
      (linEval a b lo).value [(lo, linEval a b lo), (hi, linEval a b hi)] [lo, hi]
    simp only [resultOf]
    rw [List.length_map]
    exact le_trans h6 (by simp)

/-- Witness for the amended C1 theorem at `a = 1`, `b = 0`, `target = 0`,
`tol = 1`, bracket `(-1, 2)`, `k + 1 = 2` iterations allowed. -/
theorem bisection_linear_convergence_witness :
    ∃ r : SearchResult,
      search (linEval 1 0) 0 1 (-1) 2 (1 + 1) = Except.ok r ∧
      r.converged = true ∧
      |r.finalGuess - (0 - 0) / 1| < 1 / |(1:ℚ)| ∧
      r.guesses.length ≤ 2 + (1 + 1) :=
  bisection_linear_convergence 1 0 0 1 (-1) 2 1 (by norm_num) (by norm_num)
    (by norm_num) (by norm_num) (by norm_num)

/-- C8: the secant-mode guards: when the two most recent values coincide
(`v2 = v1`, zero slope) the proposed guess is the bisection midpoint rather
than a division by zero; when the interpolated guess falls outside the
current bracket the bisection midpoint is used for that step; and
consequently every evaluator invocation of a secant search lies inside the
caller-supplied bracket interval. -/
theorem secant_guard_containment :
    (∀ target lo hi g1 v1 g2 : ℚ,
      secantNext target lo hi g1 v1 g2 v1 = (lo + hi) / 2) ∧
    (∀ target lo hi g1 v1 g2 v2 : ℚ, v2 ≠ v1 →
      (g1 + (target - v1) * (g2 - g1) / (v2 - v1) < min lo hi ∨
        max lo hi < g1 + (target - v1) * (g2 - g1) / (v2 - v1)) →
      secantNext target lo hi g1 v1 g2 v2 = (lo + hi) / 2) ∧
    (∀ (e : Evaluator) (target tol lo hi : ℚ) (maxIter : Nat),
      ∀ q ∈ (searchSecantTr e target tol lo hi maxIter).2,
        min lo hi ≤ q ∧ q ≤ max lo hi) := by
  refine ⟨?_, ?_, ?_⟩
  · intro target lo hi g1 v1 g2
    unfold secantNext
    rw [if_pos rfl]
  · intro target lo hi g1 v1 g2 v2 h1 h2
    unfold secantNext
    rw [if_neg h1, if_pos h2]
  · intro e target tol lo hi maxIter q hq
    rw [searchSecantTr] at hq
    by_cases hs : sgn ((e lo).value - target) = sgn ((e hi).value - target)
    · rw [if_pos hs] at hq
      have hq2 : q ∈ [lo, hi] := hq
      rcases List.mem_cons.mp hq2 with h | h
      · rw [h]
        exact ⟨min_le_left lo hi, le_max_left lo hi⟩
      · rw [List.mem_singleton] at h
        rw [h]
        exact ⟨min_le_right lo hi, le_max_right lo hi⟩
    · rw [if_neg hs] at hq
      obtain ⟨d, hd1, hd2⟩ := secantLoop_mem e target tol maxIter lo hi
        (e lo).value lo (e lo).value hi (e hi).value
        [(lo, e lo), (hi, e hi)] [lo, hi]
      have hq2 : q ∈ (secantRun e target tol lo hi maxIter).callLog := hq
      have hd1' : (secantRun e target tol lo hi maxIter).callLog = [lo, hi] ++ d := hd1
      rw [hd1'] at hq2
      rcases List.mem_append.mp hq2 with h | h
      · rcases List.mem_cons.mp h with h | h
        · rw [h]
          exact ⟨min_le_left lo hi, le_max_left lo hi⟩
        · rw [List.mem_singleton] at h
          rw [h]
          exact ⟨min_le_right lo hi, le_max_right lo hi⟩
      · exact hd2 q h

/-- Replay of the notebook run: with the measured keff values, target 1,
tol 1/100 and bracket (1000, 2500), the modelled driver converges at the
fifth evaluator invocation with final guess 1937.5. -/
lemma notebookRun_eq :
    search notebookKeff 1 (1/100) 1000 2500 10 = Except.ok
      { finalGuess := 3875/2,
        guesses := [1000, 2500, 1750, 2125, 3875/2],
        measurements := [⟨108971/100000, 163/100000⟩, ⟨95309/100000, 154/100000⟩,
          ⟨101511/100000, 156/100000⟩, ⟨98400/100000, 172/100000⟩,
          ⟨99913/100000, 174/100000⟩],
        converged := true } := by
  rw [search, searchTr]
  norm_num [notebookKeff, sgn]
  rw [searchRun, show (10:Nat) = 9 + 1 from rfl, bisectLoop_succ]
  norm_num [notebookKeff, sgn, abs_lt]
  rw [show (9:Nat) = 8 + 1 from rfl, bisectLoop_succ]
  norm_num [notebookKeff, sgn, abs_lt]
  rw [show (8:Nat) = 7 + 1 from rfl, bisectLoop_succ]
  norm_num [notebookKeff, sgn, abs_lt, resultOf]

/-- C9 (counterexample): replaying the notebook's measured keff values under
the specified convergence test `|value - target| < tol` with target 1,
tol 1/100 and bracket (1000, 2500), the search terminates converged at the
fifth evaluator invocation with final guess 1937.5, which is not near 1926
(not within 1 ppm, the notebook's printed rounding). -/
theorem notebook_scenario_not_near_1926 :
    (search notebookKeff 1 (1/100) 1000 2500 10 = Except.ok
      { finalGuess := 3875/2,
        guesses := [1000, 2500, 1750, 2125, 3875/2],
        measurements := [⟨108971/100000, 163/100000⟩, ⟨95309/100000, 154/100000⟩,
          ⟨101511/100000, 156/100000⟩, ⟨98400/100000, 172/100000⟩,
          ⟨99913/100000, 174/100000⟩],
        converged := true }) ∧
    ¬ |(3875/2 : ℚ) - 1926| ≤ 1 := by
  constructor
  · exact notebookRun_eq
  · norm_num [abs_le]

/-- C9 (amended): on the notebook's measured keff values with target 1,
tol 1/100 and bracket (1000, 2500), the search terminates with
`converged = true`, final guess 1937.5 (within 12 of 1926), after exactly 5
evaluator invocations — within the 9–10 iteration budget. -/
theorem notebook_scenario_amended :
    ∃ r : SearchResult,
      search notebookKeff 1 (1/100) 1000 2500 10 = Except.ok r ∧
      r.converged = true ∧ r.finalGuess = 3875/2 ∧
      r.guesses.length = 5 ∧ |r.finalGuess - 1926| ≤ 12 :=
  ⟨_, notebookRun_eq, rfl, rfl, rfl, by norm_num [abs_le]⟩

/-- C1 (counterexample): for the monotonic linear evaluator `f(x) = x/100`
(`a = 1/100`, `b = 0`), target 0, `tol = 1/10` and the valid straddling
bracket `(-1, 3)`, with `ceil(log2((hi - lo)/tol)) = 6` allowed iterations,
bisection converges at final guess 1, but `|1 - x*| = 1` is not within
`tol = 1/10` of the root `x* = (0 - 0)/(1/100) = 0`: the claimed parameter
tolerance fails unless rescaled by the slope. -/
theorem bisection_linear_tol_counterexample :
    (search (linEval (1/100) 0) 0 (1/10) (-1) 3 6 = Except.ok
      { finalGuess := 1, guesses := [-1, 3, 1],
        measurements := [⟨-(1/100), 0⟩, ⟨3/100, 0⟩, ⟨1/100, 0⟩],
        converged := true }) ∧
    ¬ |(1:ℚ) - (0 - 0) / (1/100)| < 1/10 := by
  constructor
  · rw [search, searchTr]
    norm_num [linEval, sgn]
    rw [searchRun, show (6:Nat) = 5 + 1 from rfl, bisectLoop_succ]
    norm_num [linEval, sgn, abs_lt, resultOf]
  · norm_num [abs_lt]

/-- A small concrete bisection run used by witnesses: `f(x) = x`, target 0,
tol 1, bracket (-1, 2): endpoints evaluate to -1 and 2, the midpoint 1/2 is
within tolerance. -/
lemma smallRun_eq :
    search (linEval 1 0) 0 1 (-1) 2 2 = Except.ok
      { finalGuess := 1/2, guesses := [-1, 2, 1/2],
        measurements := [⟨-1, 0⟩, ⟨2, 0⟩, ⟨1/2, 0⟩], converged := true } := by
  rw [search, searchTr]
  norm_num [linEval, sgn]
  rw [searchRun, show (2:Nat) = 1 + 1 from rfl, bisectLoop_succ]
  norm_num [linEval, sgn, abs_lt, resultOf]

/-- The same small run with its invocation log. -/
lemma smallRunTr_eq :
    searchTr (linEval 1 0) 0 1 (-1) 2 2 =
      (Except.ok (SearchResult.mk (1/2) [-1, 2, 1/2]
          [⟨-1, 0⟩, ⟨2, 0⟩, ⟨1/2, 0⟩] true),
       [-1, 2, 1/2]) := by
  rw [searchTr]
  norm_num [linEval, sgn]
  rw [searchRun, show (2:Nat) = 1 + 1 from rfl, bisectLoop_succ]
  norm_num [linEval, sgn, abs_lt, resultOf]

/-- A small concrete secant run used by witnesses: `f(x) = x`, target 2,
bracket (0, 4): the interpolated guess 2 is inside the bracket and exact. -/
lemma smallSecant_eq :
    (searchSecantTr (linEval 1 0) 2 (1/10) 0 4 3).2 = [0, 4, 2] := by
  rw [searchSecantTr]
  norm_num [linEval, sgn]
  rw [secantRun, show (3:Nat) = 2 + 1 from rfl, secantLoop_succ]
  norm_num [linEval, sgn, abs_lt, secantNext, min_def, max_def]

/-- Witness for C2 at the small concrete run. -/
theorem bisect_guesses_follow_spec_recurrence_witness :
    ∃ m, m ≤ 2 ∧
      (SearchResult.mk (1/2) [-1, 2, 1/2] [⟨-1, 0⟩, ⟨2, 0⟩, ⟨1/2, 0⟩]
          true).guesses =
        [-1, 2] ++ (List.range m).map
          (fun n => midOf (specBracket (linEval 1 0) 0 (-1) 2 n)) :=
  bisect_guesses_follow_spec_recurrence (linEval 1 0) 0 1 (-1) 2 2
    { finalGuess := 1/2, guesses := [-1, 2, 1/2],
      measurements := [⟨-1, 0⟩, ⟨2, 0⟩, ⟨1/2, 0⟩], converged := true }
    smallRun_eq

/-- Witness for C3 at the small concrete run. -/
theorem search_returns_result_tuple_witness :
    ∃ r : SearchResult, search (linEval 1 0) 0 1 (-1) 2 2 = Except.ok r ∧
      r.guesses.length = r.measurements.length ∧
      (r.converged = true ∨ r.converged = false) :=
  search_returns_result_tuple (linEval 1 0) 0 1 (-1) 2 2
    (by norm_num [Straddles, sgn, linEval])

/-- Witness for C4 at the small concrete run. -/
theorem history_equals_call_log_witness :
    (SearchResult.mk (1/2) [-1, 2, 1/2] [⟨-1, 0⟩, ⟨2, 0⟩, ⟨1/2, 0⟩]
        true).guesses = [-1, 2, 1/2] ∧
    (SearchResult.mk (1/2) [-1, 2, 1/2] [⟨-1, 0⟩, ⟨2, 0⟩, ⟨1/2, 0⟩]
        true).measurements = [-1, 2, 1/2].map (fun g => linEval 1 0 g) :=
  history_equals_call_log (linEval 1 0) 0 1 (-1) 2 2
    { finalGuess := 1/2, guesses := [-1, 2, 1/2],
      measurements := [⟨-1, 0⟩, ⟨2, 0⟩, ⟨1/2, 0⟩], converged := true }
    [-1, 2, 1/2] smallRunTr_eq

/-- Witness for C5: the straddle invariant after three bisection steps of a
concrete straddling bracket. -/
theorem bracket_straddle_invariant_witness :
    Straddles (linEval 1 0) 0
      (specBracket (linEval 1 0) 0 (-1) 2 3).1
      (specBracket (linEval 1 0) 0 (-1) 2 3).2 :=
  bracket_straddle_invariant (linEval 1 0) 0 (-1) 2
    (by norm_num [Straddles, sgn, linEval]) 3

/-- Witness for C6: a bracket (1, 2) for `f(x) = x` with target 0 does not
straddle, so the search fails fast after the two endpoint evaluations. -/
theorem invalid_bracket_fails_fast_witness :
    searchTr (linEval 1 0) 0 1 1 2 5 =
      (Except.error SearchError.invalidBracket, [1, 2]) :=
  invalid_bracket_fails_fast (linEval 1 0) 0 1 1 2 5
    (by norm_num [Straddles, sgn, linEval])

/-- Witness for C7 at a concrete straddling bracket. -/
theorem exhaustion_returns_notConverged_witness :
    (∃ r : SearchResult, search (linEval 1 0) 0 1 (-1) 2 0 = Except.ok r ∧
      r.converged = false ∧ r.guesses = [-1, 2] ∧
      r.finalGuess = bestGuess 0 [(-1, linEval 1 0 (-1)), (2, linEval 1 0 2)]) ∧
    (∀ (maxIter : Nat) (r : SearchResult),
      search (linEval 1 0) 0 1 (-1) 2 maxIter = Except.ok r →
      r.converged = false →
      r.guesses.length = 2 + maxIter ∧
      r.finalGuess = bestGuess 0 (r.guesses.zip r.measurements)) :=
  exhaustion_returns_notConverged (linEval 1 0) 0 1 (-1) 2
    (by norm_num [Straddles, sgn, linEval])

/-- Witness for C8: the logged interior guess 2 of the small secant run lies
inside the bracket (0, 4). -/
theorem secant_guard_containment_witness :
    min (0:ℚ) 4 ≤ 2 ∧ (2:ℚ) ≤ max (0:ℚ) 4 :=
  secant_guard_containment.2.2 (linEval 1 0) 2 (1/10) 0 4 3 2
    (by rw [smallSecant_eq]; simp)

/-- Witness for C10 at the small concrete run. -/
theorem endpoints_evaluated_first_witness :
    (SearchResult.mk (1/2) [-1, 2, 1/2] [⟨-1, 0⟩, ⟨2, 0⟩, ⟨1/2, 0⟩]
        true).guesses.take 2 = [-1, 2] :=
  (endpoints_evaluated_first (linEval 1 0) 0 1 (-1) 2 2).2
    { finalGuess := 1/2, guesses := [-1, 2, 1/2],
      measurements := [⟨-1, 0⟩, ⟨2, 0⟩, ⟨1/2, 0⟩], converged := true }
    smallRun_eq

end SearchDriver
